import Mathlib

/-!
Verification of the reconciliation-engine core of `k8s-cloud-provider`:
a shallow embedding of the BackendService node planner (`Diff`), the
BackendService update action, the retry decorator, and the rate-limiting
layer, together with theorems settling the specified properties.
-/

/-! ## Structural field paths (`api.Path`)

An `api.Path` is a sequence of structural steps (pointer dereference,
struct field, slice index, map key).  `Path.Equal` is element-wise
equality, so the embedding uses a plain list with decidable equality. -/

inductive PathElem : Type where
  | pointer : PathElem
  | field (name : String) : PathElem
  | index (i : Nat) : PathElem
  | mapKey (k : String) : PathElem
deriving DecidableEq, Repr

abbrev FieldPath := List PathElem

/-- The path `api.Path{}.Pointer().Field("LoadBalancingScheme")` used by
`backendServiceNode.Diff` to detect a recreate-only change. -/
def loadBalancingSchemePath : FieldPath :=
  [PathElem.pointer, PathElem.field "LoadBalancingScheme"]

/-! ## Diff results (`api.DiffResult`)

The field-diffing reflection library is an external collaborator (spec §1);
the planner consumes its output: a list of deltas, each carrying the path
and the two values (rendered abstractly as strings, standing for `%v`). -/

structure DiffItem : Type where
  path : FieldPath
  a : String
  b : String
deriving DecidableEq, Repr

structure DiffResult : Type where
  items : List DiffItem
deriving DecidableEq, Repr

/-- `HasDiff` of the diff library: the delta list is non-empty
(spec §3: "Diff is the list of field deltas"). -/
def DiffResult.hasDiff (d : DiffResult) : Bool :=
  !d.items.isEmpty

/-! ## Plan details (`rnode.PlanDetails`) -/

inductive Operation : Type where
  | opNothing
  | opCreate
  | opUpdate
  | opRecreate
  | opDelete
deriving DecidableEq, Repr

structure PlanDetails : Type where
  operation : Operation
  why : String
  diff : Option DiffResult
deriving DecidableEq, Repr

/-! ## Nodes

`backendServiceNode.Diff` first type-asserts its argument to a
BackendService node; any other node type is rejected.  The embedding
models the dynamic node type as a sum over the node kinds that exist in
the repository, each carrying its (abstract) resource payload. -/

inductive RNode : Type where
  | backendService (resource : String)
  | healthCheck (resource : String)
  | fake (resource : String)
deriving DecidableEq, Repr

/-- The `%T` rendering of a node used in the type-mismatch error. -/
def nodeTypeName : RNode → String
  | RNode.backendService _ => "*backendservice.backendServiceNode"
  | RNode.healthCheck _ => "*healthcheck.healthCheckNode"
  | RNode.fake _ => "*fake.fakeNode"

/-- Single-quote character, for the `%v` renderings inside `Why` strings. -/
def sglQuote : String := String.singleton (Char.ofNat 39)

/-- The detail strings accumulated by `planRecreate` inside
`backendServiceNode.Diff`: one entry per `LoadBalancingScheme` delta. -/
def recreateDetails (diff : DiffResult) : List String :=
  diff.items.filterMap (fun d =>
    if d.path = loadBalancingSchemePath then
      some ("LoadBalancingScheme change: " ++ sglQuote ++ d.a ++ sglQuote ++ " -> " ++
        sglQuote ++ d.b ++ sglQuote)
    else none)

/-- The `PlanDetails` returned for the no-diff case. -/
def nothingPlan : PlanDetails :=
  { operation := Operation.opNothing,
    why := "No diff between got and want",
    diff := none }

/-- The `PlanDetails` returned when a recreate-only field changed. -/
def recreatePlan (diff : DiffResult) : PlanDetails :=
  { operation := Operation.opRecreate,
    why := "BackendService needs to be recreated: " ++
      String.intercalate ", " (recreateDetails diff),
    diff := some diff }

/-- The `PlanDetails` returned for an in-place update. -/
def updatePlan (diff : DiffResult) : PlanDetails :=
  { operation := Operation.opUpdate,
    why := "update in place (changed=TODO)",
    diff := some diff }

/-- `backendServiceNode.Diff(gotNode)`.  Go returns the pair
`(*PlanDetails, error)`; the embedding returns both components.
`resourceDiff` is the outcome of the external library call
`got.resource.Diff(n.resource)`, passed in as a parameter (it is only
consulted after the type assertion succeeds). -/
def backendServiceNodeDiff (gotNode : RNode) (resourceDiff : Except String DiffResult) :
    Option PlanDetails × Option String :=
  match gotNode with
  | RNode.backendService _ =>
    match resourceDiff with
    | Except.error e => (none, some ("BackendServiceNode: Diff " ++ e))
    | Except.ok diff =>
      if !diff.hasDiff then
        (some nothingPlan, none)
      else if diff.items.any (fun d => d.path = loadBalancingSchemePath) then
        (some (recreatePlan diff), none)
      else
        (some (updatePlan diff), none)
  | RNode.healthCheck r =>
      (none, some ("BackendServiceNode: invalid type to Diff: " ++
        nodeTypeName (RNode.healthCheck r)))
  | RNode.fake r =>
      (none, some ("BackendServiceNode: invalid type to Diff: " ++
        nodeTypeName (RNode.fake r)))

/-- C1: for BackendService nodes whose resource diff is non-empty, `Diff`
plans `Recreate` iff some delta's path equals the `LoadBalancingScheme`
field path, and plans `Update` otherwise. -/
theorem bs_diff_recreate_iff_lbs (res : String) (diff : DiffResult)
    (h : diff.hasDiff = true) :
    ∃ pd, backendServiceNodeDiff (RNode.backendService res) (Except.ok diff) = (some pd, none) ∧
      (pd.operation = Operation.opRecreate ↔ ∃ d ∈ diff.items, d.path = loadBalancingSchemePath) ∧
      (pd.operation = Operation.opRecreate ∨ pd.operation = Operation.opUpdate) := by
  cases hrec : diff.items.any (fun d => d.path = loadBalancingSchemePath) with
  | true =>
    refine ⟨recreatePlan diff, ?_, ?_, Or.inl rfl⟩
    · simp [backendServiceNodeDiff, h, hrec]
    · simp only [List.any_eq_true, decide_eq_true_eq] at hrec
      exact iff_of_true rfl hrec
  | false =>
    refine ⟨updatePlan diff, ?_, ?_, Or.inr rfl⟩
    · simp [backendServiceNodeDiff, h, hrec]
    · have hnex : ¬ ∃ d ∈ diff.items, d.path = loadBalancingSchemePath := by
        intro hex
        obtain ⟨d, hd, hp⟩ := hex
        have hany : diff.items.any (fun d => d.path = loadBalancingSchemePath) = true := by
          simp only [List.any_eq_true, decide_eq_true_eq]
          exact ⟨d, hd, hp⟩
        rw [hrec] at hany
        cases hany
      exact iff_of_false (fun hop => by simp [updatePlan] at hop) hnex

/-- Witness for C1 at a concrete one-delta diff containing the
`LoadBalancingScheme` path. -/
theorem bs_diff_recreate_iff_lbs_witness :
    ∃ pd, backendServiceNodeDiff (RNode.backendService "bs")
        (Except.ok ⟨[⟨loadBalancingSchemePath, "INTERNAL_SELF_MANAGED", "EXTERNAL"⟩]⟩) = (some pd, none) ∧
      (pd.operation = Operation.opRecreate ↔
        ∃ d ∈ (⟨[⟨loadBalancingSchemePath, "INTERNAL_SELF_MANAGED", "EXTERNAL"⟩]⟩ : DiffResult).items,
          d.path = loadBalancingSchemePath) ∧
      (pd.operation = Operation.opRecreate ∨ pd.operation = Operation.opUpdate) :=
  bs_diff_recreate_iff_lbs "bs" ⟨[⟨loadBalancingSchemePath, "INTERNAL_SELF_MANAGED", "EXTERNAL"⟩]⟩ (by decide)

/-- C2: for BackendService nodes with an empty resource diff, `Diff`
plans `Nothing`, with no diff recorded in the resulting `PlanDetails`
and no error. -/
theorem bs_diff_empty_nothing (res : String) (diff : DiffResult)
    (h : diff.hasDiff = false) :
    backendServiceNodeDiff (RNode.backendService res) (Except.ok diff) =
      (some { operation := Operation.opNothing,
              why := "No diff between got and want",
              diff := none }, none) := by
  simp [backendServiceNodeDiff, h, nothingPlan]

/-- Witness for C2 at the empty diff. -/
theorem bs_diff_empty_nothing_witness :
    backendServiceNodeDiff (RNode.backendService "bs") (Except.ok ⟨[]⟩) =
      (some { operation := Operation.opNothing,
              why := "No diff between got and want",
              diff := none }, none) :=
  bs_diff_empty_nothing "bs" ⟨[]⟩ (by decide)

/-- C10: `backendServiceNode.Diff` on an argument that is not a
BackendService node returns a nil `PlanDetails` together with the
type-mismatch error. -/
theorem bs_diff_invalid_type (gotNode : RNode) (resourceDiff : Except String DiffResult)
    (h : ∀ r, gotNode ≠ RNode.backendService r) :
    backendServiceNodeDiff gotNode resourceDiff =
      (none, some ("BackendServiceNode: invalid type to Diff: " ++ nodeTypeName gotNode)) := by
  cases gotNode with
  | backendService r => exact absurd rfl (h r)
  | healthCheck r => rfl
  | fake r => rfl

/-- Witness for C10 at a HealthCheck node. -/
theorem bs_diff_invalid_type_witness :
    backendServiceNodeDiff (RNode.healthCheck "hc") (Except.ok ⟨[]⟩) =
      (none, some ("BackendServiceNode: invalid type to Diff: " ++
        nodeTypeName (RNode.healthCheck "hc"))) :=
  bs_diff_invalid_type (RNode.healthCheck "hc") (Except.ok ⟨[]⟩) (by intro r h; cases h)

/-! ## Retry decorator (`exec.retriableAction`)

`Run` is a do-while loop: it always runs the wrapped action first; on
success it returns immediately; on error it continues iff
`retryProvider.IsRetriable(err) && ctx.Err() == nil`.  The embedding
threads the wrapped action's state `A` and the retry provider's state `R`
explicitly, abstracts errors as values of `E`, and uses fuel to bound the
number of modeled loop iterations.  `ctxErr k` tells whether `ctx.Err()`
is non-nil at the `k`-th loop-condition check. -/

inductive RunResult (A R E : Type) : Type where
  | done (a : A) (rp : R) (err : Option E)
  | fuelOut (a : A) (rp : R)
deriving DecidableEq, Repr

/-- `retriableAction.Run`.  `actRun` is the wrapped action's `Run`
(returning its new state and `nil`/an error); `rpCheck` is
`retryProvider.IsRetriable` (returning its new state and the verdict).
`k` numbers the loop-condition checks, starting at 1. -/
def retriableRun {A R E : Type} (actRun : A → A × Option E) (rpCheck : R → R × Bool)
    (ctxErr : Nat → Bool) : Nat → Nat → A → R → RunResult A R E
  | 0, _, a, rp => RunResult.fuelOut a rp
  | Nat.succ fuel, k, a, rp =>
    match actRun a with
    | (a2, none) => RunResult.done a2 rp none
    | (a2, some e) =>
      match rpCheck rp with
      | (rp2, retry) =>
        if retry && !ctxErr k then retriableRun actRun rpCheck ctxErr fuel (k + 1) a2 rp2
        else RunResult.done a2 rp2 (some e)

/-- A wrapped action whose state is the count of completed runs and whose
`k`-th run returns the outcome `f k` (the `fakeAction` of the tests is
the instance `f k = some err` for `k` below the error threshold and
`none` from there on). -/
def countingRun {E : Type} (f : Nat → Option E) : Nat → Nat × Option E :=
  fun n => (n + 1, f (n + 1))

/-- A retry provider whose state is the count of `IsRetriable` calls and
whose verdict is the constant `b` (the `fakeRetryProvider` of the
tests). -/
def countingCheck (b : Bool) : Nat → Nat × Bool :=
  fun n => (n + 1, b)

/-- One loop iteration on a failed run with a positive retry verdict and
a live context continues the loop. -/
theorem retriableRun_step_err {A R E : Type} {actRun : A → A × Option E}
    {rpCheck : R → R × Bool} {ctxErr : Nat → Bool} (fuel k : Nat) {a a2 : A} {rp rp2 : R}
    {e : E} (hrun : actRun a = (a2, some e)) (hret : rpCheck rp = (rp2, true))
    (hctx : ctxErr k = false) :
    retriableRun actRun rpCheck ctxErr (fuel + 1) k a rp =
      retriableRun actRun rpCheck ctxErr fuel (k + 1) a2 rp2 := by
  conv_lhs => unfold retriableRun
  rw [hrun, hret, hctx]
  simp

/-- One loop iteration on a successful run returns immediately with no
error, leaving the retry provider untouched. -/
theorem retriableRun_step_ok {A R E : Type} {actRun : A → A × Option E}
    {rpCheck : R → R × Bool} {ctxErr : Nat → Bool} (fuel k : Nat) {a a2 : A} {rp : R}
    (hrun : actRun a = (a2, none)) :
    retriableRun actRun rpCheck ctxErr (fuel + 1) k a rp = RunResult.done a2 rp none := by
  unfold retriableRun
  rw [hrun]

/-- One loop iteration on a failed run with a negative retry verdict
stops, returning the action's error. -/
theorem retriableRun_step_stop {A R E : Type} {actRun : A → A × Option E}
    {rpCheck : R → R × Bool} {ctxErr : Nat → Bool} (fuel k : Nat) {a a2 : A} {rp rp2 : R}
    {e : E} (hrun : actRun a = (a2, some e)) (hret : rpCheck rp = (rp2, false)) :
    retriableRun actRun rpCheck ctxErr (fuel + 1) k a rp = RunResult.done a2 rp2 (some e) := by
  unfold retriableRun
  rw [hrun, hret]
  simp

/-- C4: for every wrapped action that fails on its first 4 runs and
succeeds on the 5th, under a live context: if `IsRetriable` always
answers true, `Run` invokes the action exactly 5 times, consults
`IsRetriable` exactly 4 times and returns success with no error; if
`IsRetriable` answers false, `Run` invokes the action exactly once,
consults `IsRetriable` exactly once and returns the action's error. -/
theorem retriable_run_counts {E : Type} (f : Nat → Option E) (e1 e2 e3 e4 : E)
    (h1 : f 1 = some e1) (h2 : f 2 = some e2) (h3 : f 3 = some e3) (h4 : f 4 = some e4)
    (h5 : f 5 = none) (m : Nat) (ctxErr2 : Nat → Bool) :
    retriableRun (countingRun f) (countingCheck true) (fun _ => false) (m + 5) 1 0 0 =
      RunResult.done 5 4 none ∧
    retriableRun (countingRun f) (countingCheck false) ctxErr2 (m + 1) 1 0 0 =
      RunResult.done 1 1 (some e1) := by
  constructor
  · calc
      retriableRun (countingRun f) (countingCheck true) (fun _ => false) (m + 5) 1 0 0 =
          retriableRun (countingRun f) (countingCheck true) (fun _ => false) (m + 4) 2 1 1 :=
        retriableRun_step_err (m + 4) 1
          (show countingRun f 0 = (1, some e1) by simp [countingRun, h1]) rfl rfl
      _ = retriableRun (countingRun f) (countingCheck true) (fun _ => false) (m + 3) 3 2 2 :=
        retriableRun_step_err (m + 3) 2
          (show countingRun f 1 = (2, some e2) by simp [countingRun, h2]) rfl rfl
      _ = retriableRun (countingRun f) (countingCheck true) (fun _ => false) (m + 2) 4 3 3 :=
        retriableRun_step_err (m + 2) 3
          (show countingRun f 2 = (3, some e3) by simp [countingRun, h3]) rfl rfl
      _ = retriableRun (countingRun f) (countingCheck true) (fun _ => false) (m + 1) 5 4 4 :=
        retriableRun_step_err (m + 1) 4
          (show countingRun f 3 = (4, some e4) by simp [countingRun, h4]) rfl rfl
      _ = RunResult.done 5 4 none :=
        retriableRun_step_ok m 5 (show countingRun f 4 = (5, none) by simp [countingRun, h5])
  · exact retriableRun_step_stop m 1
      (show countingRun f 0 = (1, some e1) by simp [countingRun, h1]) rfl

/-- Witness for C4 at the test fixture: error threshold 5, ample fuel. -/
theorem retriable_run_counts_witness :
    (retriableRun (countingRun (fun k => if k < 5 then some "Action in error" else none))
        (countingCheck true) (fun _ => false) (5 + 5) 1 0 0 =
      RunResult.done 5 4 none) ∧
    (retriableRun (countingRun (fun k => if k < 5 then some "Action in error" else none))
        (countingCheck false) (fun _ => false) (5 + 1) 1 0 0 =
      RunResult.done 1 1 (some "Action in error")) :=
  retriable_run_counts (fun k => if k < 5 then some "Action in error" else none)
    "Action in error" "Action in error" "Action in error" "Action in error"
    rfl rfl rfl rfl rfl 5 (fun _ => false)

/-- C5: if `ctx.Err()` is non-nil at the loop-condition check following a
failed run, `Run` performs no further reruns: it stops with the action
state advanced by exactly that one run, the retry provider consulted
exactly once more, and returns the action's own last error unchanged. -/
theorem retriable_stop_on_cancel {A R E : Type} (actRun : A → A × Option E)
    (rpCheck : R → R × Bool) (ctxErr : Nat → Bool) (fuel k : Nat) (a a2 : A) (rp : R) (e : E)
    (hrun : actRun a = (a2, some e)) (hctx : ctxErr k = true) :
    retriableRun actRun rpCheck ctxErr (fuel + 1) k a rp =
      RunResult.done a2 (rpCheck rp).1 (some e) := by
  unfold retriableRun
  rw [hrun]
  rcases hrp : rpCheck rp with ⟨rp2, retry⟩
  simp [hctx]

/-- Witness for C5 at a concrete always-failing action with an
always-retry provider under a cancelled context. -/
theorem retriable_stop_on_cancel_witness :
    retriableRun (fun n : Nat => (n + 1, some "boom")) (fun n : Nat => (n + 1, true))
        (fun _ => true) 5 1 0 0 = RunResult.done 1 1 (some "boom") :=
  retriable_stop_on_cancel (fun n : Nat => (n + 1, some "boom")) (fun n : Nat => (n + 1, true))
    (fun _ => true) 4 1 0 1 0 "boom" rfl rfl

/-! ## Retry decorator: identity forwarding

`retriableAction` forwards `Metadata`, `PendingEvents`, `DryRun` (and
`CanRun`/`Signal`) to the wrapped action, but `String()` returns the
wrapped action's string with `" with retry"` appended. -/

inductive Event : Type where
  | existsEvent (id : String)
  | doesNotExistEvent (id : String)
deriving DecidableEq, Repr

structure ActionMetadata : Type where
  name : String
  type : String
  summary : String
deriving DecidableEq, Repr

/-- The identity-relevant surface of a wrapped `exec.Action`. -/
structure WrappedAction : Type where
  str : String
  metadata : ActionMetadata
  pendingEvents : List Event
  dryRunEvents : List Event
deriving DecidableEq, Repr

/-- `retriableAction.String`. -/
def retriableActionString (a : WrappedAction) : String :=
  a.str ++ " with retry"

/-- `retriableAction.Metadata`. -/
def retriableActionMetadata (a : WrappedAction) : ActionMetadata :=
  a.metadata

/-- `retriableAction.PendingEvents`. -/
def retriableActionPendingEvents (a : WrappedAction) : List Event :=
  a.pendingEvents

/-- `retriableAction.DryRun`. -/
def retriableActionDryRun (a : WrappedAction) : List Event :=
  a.dryRunEvents

/-- C8 counterexample: the retry decorator does not preserve the wrapped
action's `String()`; on the test's `fakeAction` it returns
`"fakeAction with retry"`, not `"fakeAction"`. -/
theorem retriable_string_changed :
    retriableActionString
        { str := "fakeAction",
          metadata := { name := "fakeAction", type := "", summary := "" },
          pendingEvents := [], dryRunEvents := [] } ≠ "fakeAction" := by
  decide

/-- C8 (amended): the retry decorator preserves the wrapped action's
`Metadata`, pending events and dry-run (emitted) events, while its
`String()` is the wrapped action's string with " with retry" appended. -/
theorem retriable_preserves_metadata_events (a : WrappedAction) :
    retriableActionMetadata a = a.metadata ∧
    retriableActionPendingEvents a = a.pendingEvents ∧
    retriableActionDryRun a = a.dryRunEvents ∧
    retriableActionString a = a.str ++ " with retry" :=
  ⟨rfl, rfl, rfl, rfl⟩

/-! ## Retry decorator: the wrapped action always runs at least once

To observe the number of invocations generically, the wrapped action's
state is instrumented as a run counter via `countingRun`. -/

/-- The run counter recorded in a result. -/
def runCount {R E : Type} : RunResult Nat R E → Nat
  | RunResult.done a _ _ => a
  | RunResult.fuelOut a _ => a

/-- The run counter never decreases along the loop. -/
theorem runCount_le_retriableRun {R E : Type} (f : Nat → Option E) (rpCheck : R → R × Bool)
    (ctxErr : Nat → Bool) :
    ∀ (fuel k n : Nat) (rp : R),
      n ≤ runCount (retriableRun (countingRun f) rpCheck ctxErr fuel k n rp) := by
  intro fuel
  induction fuel with
  | zero => intro k n rp; exact Nat.le_refl n
  | succ fuel ih =>
    intro k n rp
    unfold retriableRun
    cases hf : f (n + 1) with
    | none => simp [countingRun, hf, runCount]
    | some e =>
      rcases hrp : rpCheck rp with ⟨rp2, retry⟩
      simp only [countingRun, hf, hrp]
      by_cases hc : (retry && !ctxErr k) = true
      · rw [if_pos hc]
        exact Nat.le_trans (Nat.le_succ n) (ih (k + 1) (n + 1) rp2)
      · rw [if_neg hc]
        exact Nat.le_succ n

/-- C9: `Run` always invokes the wrapped action at least once, for every
context including one already cancelled before the call; and when the
first run succeeds, `Run` returns its success without ever consulting the
retry provider or the context. -/
theorem retriable_runs_at_least_once {R E : Type} (f : Nat → Option E) (rpCheck : R → R × Bool)
    (ctxErr : Nat → Bool) (fuel : Nat) (rp : R) (h : 1 ≤ fuel) :
    1 ≤ runCount (retriableRun (countingRun f) rpCheck ctxErr fuel 1 0 rp) ∧
    (f 1 = none →
      retriableRun (countingRun f) rpCheck ctxErr fuel 1 0 rp = RunResult.done 1 rp none) := by
  cases fuel with
  | zero => cases h
  | succ fuel =>
    constructor
    · unfold retriableRun
      cases hf : f 1 with
      | none => simp [countingRun, hf, runCount]
      | some e =>
        rcases hrp : rpCheck rp with ⟨rp2, retry⟩
        simp only [countingRun, hf, hrp]
        by_cases hc : (retry && !ctxErr 1) = true
        · rw [if_pos hc]
          exact runCount_le_retriableRun f rpCheck ctxErr fuel 2 1 rp2
        · rw [if_neg hc]
          exact Nat.le_refl 1
    · intro hf
      unfold retriableRun
      simp [countingRun, hf]

/-- Witness for C9: an always-failing action under an already-cancelled
context is still run exactly once. -/
theorem retriable_runs_at_least_once_witness :
    1 ≤ runCount (retriableRun (countingRun (fun _ => some "boom"))
        (fun n : Nat => (n + 1, true)) (fun _ => true) 3 1 0 0) ∧
    ((fun _ : Nat => some "boom") 1 = none →
      retriableRun (countingRun (fun _ => some "boom")) (fun n : Nat => (n + 1, true))
        (fun _ => true) 3 1 0 0 = RunResult.done 1 0 none) :=
  retriable_runs_at_least_once (fun _ => some "boom") (fun n : Nat => (n + 1, true))
    (fun _ => true) 3 0 (by decide)

/-! ## BackendService update action (`backendServiceUpdateAction.Run`)

`Run` converts the full desired resource with `ToGA`, issues one Update
call to `BackendServices()` (Global key) or `RegionBackendServices()`
(Regional key) with that full resource as the request body, and on
success returns a nil event list.  The embedding records the issued cloud
calls as a trace. -/

inductive MetaKeyType : Type where
  | global
  | regional
  | zonal
deriving DecidableEq, Repr

/-- A cloud call issued by the update action, with its request payload
(the resource type `ρ` is abstract). -/
inductive CloudCall (ρ : Type) : Type where
  | backendServicesUpdate (payload : ρ)
  | regionBackendServicesUpdate (payload : ρ)
deriving DecidableEq, Repr

/-- Environment of one `backendServiceUpdateAction.Run` call: the action's
`id` (rendered), the outcome of `want.resource.ToGA()`, the key's scope
type, and the outcome the cloud would return for the Update call. -/
structure UpdateActionEnv (ρ : Type) : Type where
  id : String
  toGA : Except String ρ
  keyType : MetaKeyType
  updateErr : Option String
deriving Repr

/-- `backendServiceUpdateAction.Run`: returns the trace of issued cloud
calls together with the Go `(EventList, error)` pair (as an `Except`). -/
def backendServiceUpdateActionRun {ρ : Type} (env : UpdateActionEnv ρ) :
    List (CloudCall ρ) × Except String (List Event) :=
  match env.toGA with
  | Except.error e =>
      ([], Except.error ("backendServiceUpdateAction Run(" ++ env.id ++ "): ToGA: " ++ e))
  | Except.ok res =>
    match env.keyType with
    | MetaKeyType.global =>
      match env.updateErr with
      | some e =>
          ([CloudCall.backendServicesUpdate res],
            Except.error ("backendServiceUpdateAction Run(" ++ env.id ++ "): Update: " ++ e))
      | none => ([CloudCall.backendServicesUpdate res], Except.ok [])
    | MetaKeyType.regional =>
      match env.updateErr with
      | some e =>
          ([CloudCall.regionBackendServicesUpdate res],
            Except.error ("backendServiceUpdateAction Run(" ++ env.id ++ "): Update: " ++ e))
      | none => ([CloudCall.regionBackendServicesUpdate res], Except.ok [])
    | MetaKeyType.zonal =>
        ([], Except.error ("backendServiceUpdateAction Run(" ++ env.id ++ "): invalid key type"))

/-- C6 counterexample: at a concrete successful update, `Run` returns an
empty event list, not `[ExistsEvent(id)]` — the exists event of the
Update lowering is emitted by the separate event action, not by the
update action's `Run`. -/
theorem update_run_no_exists_event :
    (backendServiceUpdateActionRun (ρ := Nat)
        { id := "compute/backendService:proj/bs", toGA := Except.ok 7,
          keyType := MetaKeyType.global, updateErr := none }).2 = Except.ok [] ∧
    (Except.ok ([] : List Event) : Except String (List Event)) ≠
      Except.ok [Event.existsEvent "compute/backendService:proj/bs"] := by
  exact ⟨rfl, by simp⟩

/-- C6 (amended): for every update-action run whose `ToGA` conversion
yields the desired resource `res` and whose cloud call succeeds, `Run`
issues exactly one Update call carrying the full desired resource as the
request payload (to `BackendServices` for a Global key, to
`RegionBackendServices` for a Regional key) and returns an empty event
list. -/
theorem update_run_full_payload_no_events {ρ : Type} (env : UpdateActionEnv ρ) (res : ρ)
    (hga : env.toGA = Except.ok res) (hok : env.updateErr = none) :
    (env.keyType = MetaKeyType.global →
      backendServiceUpdateActionRun env = ([CloudCall.backendServicesUpdate res], Except.ok [])) ∧
    (env.keyType = MetaKeyType.regional →
      backendServiceUpdateActionRun env =
        ([CloudCall.regionBackendServicesUpdate res], Except.ok [])) := by
  constructor
  · intro hk
    unfold backendServiceUpdateActionRun
    rw [hga, hk, hok]
  · intro hk
    unfold backendServiceUpdateActionRun
    rw [hga, hk, hok]

/-- Witness for C6 (amended) at a concrete Global-key update. -/
theorem update_run_full_payload_no_events_witness :
    ((MetaKeyType.global = MetaKeyType.global →
      backendServiceUpdateActionRun (ρ := Nat)
          { id := "compute/backendService:proj/bs", toGA := Except.ok 7,
            keyType := MetaKeyType.global, updateErr := none } =
        ([CloudCall.backendServicesUpdate 7], Except.ok [])) ∧
    (MetaKeyType.global = MetaKeyType.regional →
      backendServiceUpdateActionRun (ρ := Nat)
          { id := "compute/backendService:proj/bs", toGA := Except.ok 7,
            keyType := MetaKeyType.global, updateErr := none } =
        ([CloudCall.regionBackendServicesUpdate 7], Except.ok []))) :=
  update_run_full_payload_no_events
    { id := "compute/backendService:proj/bs", toGA := Except.ok 7,
      keyType := MetaKeyType.global, updateErr := none } 7 rfl rfl

/-! ## Rate limiters

The rate-limiter implementations live in `pkg/cloud/ratelimit.go`, which
is not part of the sources at hand; only their tests are.  The limiters
are therefore modelled from the spec (§4.6) and checked against the
behaviour the tests pin down. -/

/-- `cloud.CallContextKey`: `{ProjectID, Service, Operation}`. -/
structure CallContextKey : Type where
  projectID : String
  service : String
  operation : String
deriving DecidableEq, Repr

/-- First value bound to `k` in an association list (Go map lookup; keys
are unique in all uses below). -/
def assocFind {α β : Type} [DecidableEq α] (k : α) : List (α × β) → Option β
  | [] => none
  | (q, v) :: rest => if q = k then some v else assocFind k rest

/-- Modelled from the spec: `CompositeRateLimiter.Accept` dispatch
(`NewCompositeRateLimiter` / `Register` are not under the sources at
hand).  Spec §4.6: `Register(service, operation, rl)` installs overrides;
lookup order for key `(p, s, o)` is `(s, o)` exact, then `(s, "")`
service-default, then `("", o)` operation-default, then the default;
project is not a match dimension.  A value of `L` identifies the inner
limiter the call is dispatched to. -/
def compositeAccept {L : Type} (regs : List ((String × String) × L)) (dflt : L)
    (key : CallContextKey) : L :=
  match assocFind (key.service, key.operation) regs with
  | some rl => rl
  | none =>
    match assocFind (key.service, "") regs with
    | some rl => rl
    | none =>
      match assocFind ("", key.operation) regs with
      | some rl => rl
      | none => dflt

/-- The three counting rate limiters of `TestCompositeRateLimiter_Table`. -/
inductive TableRL : Type where
  | D
  | N
  | NG
deriving DecidableEq, Repr

/-- Registrations of the table test: `("networks","") → N` and
`("networks","get") → NG`. -/
def tableRegs : List ((String × String) × TableRL) :=
  [(("networks", ""), TableRL.N), (("networks", "get"), TableRL.NG)]

/-- The 27 keys of the table test: cross product of projects, services
and operations, in the test's loop order. -/
def tableKeys : List CallContextKey :=
  ["", "projectB", "project-does-not-exist"].flatMap (fun p =>
    ["", "networks", "service-does-not-exist"].flatMap (fun s =>
      ["", "get", "operation-does-not-exist"].map (fun o =>
        { projectID := p, service := s, operation := o })))

/-- C3: accepting the 27 cross-product keys dispatches exactly 18 calls
to the default `D`, 6 to the service-default `N`, and 3 to the exact
`NG`. -/
theorem composite_table_counts :
    ((tableKeys.map (compositeAccept tableRegs TableRL.D)).count TableRL.D = 18) ∧
    ((tableKeys.map (compositeAccept tableRegs TableRL.D)).count TableRL.N = 6) ∧
    ((tableKeys.map (compositeAccept tableRegs TableRL.D)).count TableRL.NG = 3) := by
  constructor
  · rfl
  constructor
  · rfl
  · rfl

/-! ## Per-project rate limiter (`PerProjectRateLimiter`, Individual factory)

Modelled from the spec (§4.6): a mapping ProjectID → inner rate limiter,
creating a new inner on the first sighting of a project; an
absent/empty/nil ProjectID is canonicalized to a single bucket.  With the
Individual factory every creation yields a fresh inner, identified here
by a creation counter. -/

/-- Canonical bucket of a key: a nil key (`none`) and an empty ProjectID
share the single bucket `""`. -/
def canonProject : Option String → String
  | none => ""
  | some p => p

/-- State of the per-project limiter: the project → inner table and the
id the next created inner will get (= number of inners created). -/
structure PPState : Type where
  table : List (String × Nat)
  nextId : Nat
deriving DecidableEq, Repr

/-- Modelled from the spec: `PerProjectRateLimiter.Accept` with the
Individual factory.  Returns the new state and the id of the inner
limiter the call was dispatched to. -/
def ppAccept (s : PPState) (key : Option String) : PPState × Nat :=
  match assocFind (canonProject key) s.table with
  | some innerId => (s, innerId)
  | none =>
    ({ table := s.table ++ [(canonProject key, s.nextId)], nextId := s.nextId + 1 }, s.nextId)

/-- Fold `ppAccept` over a call sequence, collecting the dispatched
inner ids. -/
def ppRun (s : PPState) : List (Option String) → PPState × List Nat
  | [] => (s, [])
  | key :: keys =>
    let step := ppAccept s key
    let rest := ppRun step.1 keys
    (rest.1, step.2 :: rest.2)

def ppInit : PPState := { table := [], nextId := 0 }

/-- Dispatched inner ids of a call sequence, from the fresh limiter. -/
def ppDispatch (keys : List (Option String)) : List Nat :=
  (ppRun ppInit keys).2

/-- Final limiter state after a call sequence. -/
def ppFinal (keys : List (Option String)) : PPState :=
  (ppRun ppInit keys).1

/-- Assignments present in the table survive appending entries. -/
theorem assocFind_append_of_some {q : String} {id : Nat} (l2 : List (String × Nat))
    {l1 : List (String × Nat)} (h : assocFind q l1 = some id) :
    assocFind q (l1 ++ l2) = some id := by
  induction l1 with
  | nil => cases h
  | cons hd tl ih =>
    rcases hd with ⟨a, b⟩
    by_cases ha : a = q
    · simp only [assocFind, if_pos ha] at h
      simp only [List.cons_append, assocFind, if_pos ha]
      exact h
    · simp only [assocFind, if_neg ha] at h
      simp only [List.cons_append, assocFind, if_neg ha]
      exact ih h

theorem assocFind_append_of_none {q : String} (l2 : List (String × Nat))
    {l1 : List (String × Nat)} (h : assocFind q l1 = none) :
    assocFind q (l1 ++ l2) = assocFind q l2 := by
  induction l1 with
  | nil => rfl
  | cons hd tl ih =>
    rcases hd with ⟨a, b⟩
    by_cases ha : a = q
    · simp only [assocFind, if_pos ha] at h
      cases h
    · simp only [assocFind, if_neg ha] at h
      simp only [List.cons_append, assocFind, if_neg ha]
      exact ih h

theorem ppAccept_preserves {s : PPState} {q : String} {id : Nat} (key : Option String)
    (h : assocFind q s.table = some id) :
    assocFind q ((ppAccept s key).1).table = some id := by
  unfold ppAccept
  cases hf : assocFind (canonProject key) s.table with
  | some v => exact h
  | none => exact assocFind_append_of_some _ h

theorem ppRun_preserves {q : String} {id : Nat} :
    ∀ (keys : List (Option String)) (s : PPState),
      assocFind q s.table = some id → assocFind q ((ppRun s keys).1).table = some id := by
  intro keys
  induction keys with
  | nil => intro s h; exact h
  | cons key rest ih =>
    intro s h
    exact ih (ppAccept s key).1 (ppAccept_preserves key h)

/-- After a step, the table maps the call's canonical project to the
dispatched inner id. -/
theorem ppAccept_lookup (s : PPState) (key : Option String) :
    assocFind (canonProject key) ((ppAccept s key).1).table = some (ppAccept s key).2 := by
  unfold ppAccept
  cases hf : assocFind (canonProject key) s.table with
  | some v => exact hf
  | none =>
    show assocFind (canonProject key) (s.table ++ [(canonProject key, s.nextId)]) = some s.nextId
    rw [assocFind_append_of_none _ hf]
    simp [assocFind]

/-- Table invariant: every assigned id is below `nextId`, and no two
projects share an inner id. -/
def PPState.ok (s : PPState) : Prop :=
  (∀ p id, assocFind p s.table = some id → id < s.nextId) ∧
  (∀ p q id, assocFind p s.table = some id → assocFind q s.table = some id → p = q)

theorem assocFind_append_single_cases {q p : String} {n id : Nat}
    {l : List (String × Nat)} (h : assocFind q (l ++ [(p, n)]) = some id) :
    assocFind q l = some id ∨ (assocFind q l = none ∧ p = q ∧ id = n) := by
  cases hf : assocFind q l with
  | some v =>
    rw [assocFind_append_of_some _ hf] at h
    exact Or.inl h
  | none =>
    rw [assocFind_append_of_none _ hf] at h
    simp only [assocFind] at h
    by_cases hp : p = q
    · rw [if_pos hp] at h
      injection h with hv
      exact Or.inr ⟨rfl, hp, hv.symm⟩
    · rw [if_neg hp] at h
      cases h

theorem ppAccept_ok {s : PPState} (key : Option String) (h : s.ok) :
    ((ppAccept s key).1).ok := by
  unfold ppAccept
  cases hf : assocFind (canonProject key) s.table with
  | some v => exact h
  | none =>
    rcases h with ⟨hlt, hinj⟩
    constructor
    · intro p id hp
      rcases assocFind_append_single_cases hp with hold | ⟨_, _, hid⟩
      · exact Nat.lt_trans (hlt p id hold) (Nat.lt_succ_self _)
      · rw [hid]; exact Nat.lt_succ_self _
    · intro p q id hp hq
      rcases assocFind_append_single_cases hp with hpold | ⟨hpnone, hpeq, hpid⟩ <;>
        rcases assocFind_append_single_cases hq with hqold | ⟨hqnone, hqeq, hqid⟩
      · exact hinj p q id hpold hqold
      · rw [hqid] at hpold
        exact absurd (hlt p s.nextId hpold) (Nat.lt_irrefl _)
      · rw [hpid] at hqold
        exact absurd (hlt q s.nextId hqold) (Nat.lt_irrefl _)
      · rw [← hpeq, ← hqeq]

theorem ppRun_ok :
    ∀ (keys : List (Option String)) (s : PPState), s.ok → ((ppRun s keys).1).ok := by
  intro keys
  induction keys with
  | nil => intro s h; exact h
  | cons key rest ih => intro s h; exact ih (ppAccept s key).1 (ppAccept_ok key h)

theorem ppInit_ok : ppInit.ok := by
  constructor
  · intro p id h; cases h
  · intro p q id hp hq; cases hp

/-- The final table maps the `i`-th call's canonical project to the
`i`-th dispatched inner id. -/
theorem ppRun_dispatch_lookup :
    ∀ (keys : List (Option String)) (s : PPState) (i : Nat), i < keys.length →
      assocFind (canonProject (keys.getD i none)) ((ppRun s keys).1).table =
        some ((ppRun s keys).2.getD i 0) := by
  intro keys
  induction keys with
  | nil => intro s i hi; cases hi
  | cons key rest ih =>
    intro s i hi
    cases i with
    | zero =>
      show assocFind (canonProject key) ((ppRun (ppAccept s key).1 rest).1).table =
        some (ppAccept s key).2
      exact ppRun_preserves rest (ppAccept s key).1 (ppAccept_lookup s key)
    | succ i =>
      exact ih (ppAccept s key).1 i (Nat.lt_of_succ_lt_succ hi)

/-- One step of the counting invariant: the table's domain tracks the set
of canonical projects seen, and `nextId` counts them. -/
theorem ppAccept_count (s : PPState) (seen : Finset String) (key : Option String)
    (hmem : ∀ p, (assocFind p s.table).isSome = true ↔ p ∈ seen)
    (hcard : s.nextId = seen.card) :
    (∀ p, (assocFind p ((ppAccept s key).1).table).isSome = true ↔
      p ∈ insert (canonProject key) seen) ∧
    ((ppAccept s key).1).nextId = (insert (canonProject key) seen).card := by
  unfold ppAccept
  cases hf : assocFind (canonProject key) s.table with
  | some v =>
    have hin : canonProject key ∈ seen := by
      rw [← hmem]
      rw [hf]
      rfl
    rw [Finset.insert_eq_self.mpr hin]
    exact ⟨hmem, hcard⟩
  | none =>
    have hout : canonProject key ∉ seen := by
      rw [← hmem]
      rw [hf]
      simp
    constructor
    · intro p
      by_cases hp : p = canonProject key
      · subst hp
        rw [assocFind_append_of_none _ hf]
        simp [assocFind]
      · constructor
        · intro hsome
          rcases ho : assocFind p s.table with _ | v2
          · rw [assocFind_append_of_none _ ho] at hsome
            simp only [assocFind] at hsome
            rw [if_neg (fun he => hp he.symm)] at hsome
            cases hsome
          · exact Finset.mem_insert_of_mem ((hmem p).mp (by rw [ho]; rfl))
        · intro hins
          rcases Finset.mem_insert.mp hins with he | hseen
          · exact absurd he hp
          · rcases ho : assocFind p s.table with _ | v2
            · have hm := (hmem p).mpr hseen
              rw [ho] at hm
              cases hm
            · rw [assocFind_append_of_some _ ho]
              rfl
    · show s.nextId + 1 = (insert (canonProject key) seen).card
      rw [Finset.card_insert_of_not_mem hout, hcard]

/-- The counting invariant over a whole call sequence. -/
theorem ppRun_count :
    ∀ (keys : List (Option String)) (s : PPState) (seen : Finset String),
      (∀ p, (assocFind p s.table).isSome = true ↔ p ∈ seen) →
      s.nextId = seen.card →
      ((ppRun s keys).1).nextId = (seen ∪ (keys.map canonProject).toFinset).card := by
  intro keys
  induction keys with
  | nil =>
    intro s seen hmem hcard
    simpa using hcard
  | cons key rest ih =>
    intro s seen hmem hcard
    rcases ppAccept_count s seen key hmem hcard with ⟨hmem2, hcard2⟩
    have hrest := ih (ppAccept s key).1 (insert (canonProject key) seen) hmem2 hcard2
    show (ppRun (ppAccept s key).1 rest).1.nextId =
      (seen ∪ (List.map canonProject (key :: rest)).toFinset).card
    rw [hrest, List.map_cons, List.toFinset_cons, Finset.union_insert, Finset.insert_union]

/-- C7: over any sequence of `Accept` calls on
`PerProjectRateLimiter(Individual)`, two calls are served by the same
inner limiter iff their canonicalized ProjectIDs agree (so each distinct
non-empty project gets its own inner, reused thereafter, and nil keys and
empty ProjectIDs share one inner), and the number of inners created is
the number of distinct canonical projects seen. -/
theorem pp_individual_inners (keys : List (Option String)) (i j : Nat)
    (hi : i < keys.length) (hj : j < keys.length) :
    ((ppDispatch keys).getD i 0 = (ppDispatch keys).getD j 0 ↔
      canonProject (keys.getD i none) = canonProject (keys.getD j none)) ∧
    (ppFinal keys).nextId = (keys.map canonProject).toFinset.card := by
  have hfi := ppRun_dispatch_lookup keys ppInit i hi
  have hfj := ppRun_dispatch_lookup keys ppInit j hj
  have hok := ppRun_ok keys ppInit ppInit_ok
  constructor
  · constructor
    · intro hid
      show canonProject (keys.getD i none) = canonProject (keys.getD j none)
      rw [show (ppRun ppInit keys).2.getD i 0 = (ppDispatch keys).getD i 0 from rfl, hid] at hfi
      exact hok.2 _ _ _ hfi hfj
    · intro hp
      rw [hp] at hfi
      rw [hfj] at hfi
      injection hfi with hv
      exact hv.symm
  · have hmem : ∀ p, (assocFind p ppInit.table).isSome = true ↔ p ∈ (∅ : Finset String) := by
      intro p
      simp [ppInit, assocFind]
    have := ppRun_count keys ppInit ∅ hmem rfl
    rw [show ppFinal keys = (ppRun ppInit keys).1 from rfl, this, Finset.empty_union]

/-- The call sequence of `TestPerProjectRateLimiter_Individual`. -/
def ppTestKeys : List (Option String) :=
  [some "first-project", none, some "", some "second-project"]

/-- Witness for C7: in the test's call sequence the nil key (call 1) and
the empty-ProjectID key (call 2) are served by the same inner, and three
inners are created in total. -/
theorem pp_individual_inners_witness :
    ((ppDispatch ppTestKeys).getD 1 0 = (ppDispatch ppTestKeys).getD 2 0 ↔
      canonProject (ppTestKeys.getD 1 none) = canonProject (ppTestKeys.getD 2 none)) ∧
    (ppFinal ppTestKeys).nextId = (ppTestKeys.map canonProject).toFinset.card :=
  pp_individual_inners ppTestKeys 1 2 (by decide) (by decide)
